import Mathlib

/-!
Verification of `scripts/fetch_gemini_docs.py`, a one-shot documentation
mirroring script.  Pure string and list computations are embedded directly;
the network, the clock and the SHA-256 digest are passed in as explicit
parameters (a script of responses, a timestamp string, and an abstract
`hash : String → String` standing for `hashlib.sha256(·.encode()).hexdigest()`).
Python strings are modelled as `List Char` / `String` (character-level,
matching Python's `str` indexing and slicing).
-/

namespace FetchDocs

/-- Character-list analogue of Python's `startswith` membership test:
`prefixOf p l` is true when `p` is an initial segment of `l`. -/
def prefixOf : List Char → List Char → Bool
  | [], _ => true
  | _ :: _, [] => false
  | a :: as, b :: bs => a == b && prefixOf as bs

/-- Character-list analogue of Python's `needle in hay` substring test. -/
def containsSub (needle : List Char) : List Char → Bool
  | [] => prefixOf needle []
  | b :: bs => prefixOf needle (b :: bs) || containsSub needle bs

/-- Character-list analogue of Python's `endswith`. -/
def endsWithList (suf l : List Char) : Bool :=
  prefixOf suf.reverse l.reverse

/-- Characters removed by Python's `str.strip()` (ASCII whitespace). -/
def pyWS (c : Char) : Bool :=
  c == ' ' || c == '\t' || c == '\n' || c == '\r' || c == '\x0b' || c == '\x0c'

/-- Model of Python's `str.strip()`: drop ASCII whitespace from both ends. -/
def pyStrip (l : List Char) : List Char :=
  List.rdropWhile pyWS (l.dropWhile pyWS)

/-- Model of Python's `str.split(sep)` for a single-character separator. -/
def splitOnChar (c : Char) : List Char → List (List Char)
  | [] => [[]]
  | a :: as =>
    let r := splitOnChar c as
    if a == c then [] :: r
    else
      match r with
      | [] => [[a]]
      | l :: ls => (a :: l) :: ls

/-- Model of Python's `str.replace(c, rep)` for a single-character pattern:
every occurrence of the character `c` is replaced by the list `rep`. -/
def replaceChar (c : Char) (rep : List Char) : List Char → List Char
  | [] => []
  | a :: as => if a == c then rep ++ replaceChar c rep as else a :: replaceChar c rep as

/-- Lines 97-99 of `path_to_safe_filename`: remove the `docs/` prefix
if present. -/
def stripDocsPre (p : List Char) : List Char :=
  if prefixOf "docs/".data p then p.drop 5 else p

/-- Lines 101-103 of `path_to_safe_filename`: remove the `.md` extension
if present. -/
def stripMdExt (p : List Char) : List Char :=
  if endsWithList ".md".data p then p.take (p.length - 3) else p

/-- Lines 92-109, `path_to_safe_filename`, core computation: strip the
`docs/` prefix if present, then strip the `.md` extension if present. -/
def pathCore (p : List Char) : List Char :=
  stripMdExt (stripDocsPre p)

/-- Lines 92-109, `path_to_safe_filename` on character lists: strip prefix
and extension, replace `/` by `__`, re-append `.md`. -/
def pathToSafe (p : List Char) : List Char :=
  replaceChar '/' ['_', '_'] (pathCore p) ++ ".md".data

/-- Lines 92-109: `path_to_safe_filename`, the logical-name derivation. -/
def path_to_safe_filename (s : String) : String :=
  String.mk (pathToSafe s.data)

/-- Greedy left-to-right replacement of `__` by `/`, the inverse direction of
the separator transform in `path_to_safe_filename`.  This definition is the
recovery function asserted by the spec's reversibility invariant (it is not
itself part of the script). -/
def decodeDunder : List Char → List Char
  | [] => []
  | [a] => [a]
  | a :: b :: rest =>
    if a = '_' ∧ b = '_' then '/' :: decodeDunder rest
    else a :: decodeDunder (b :: rest)

/-- Characters that take part in the separator transform: the underscore and
the directory separator. -/
def sepChar (c : Char) : Bool := c == '_' || c == '/'

/-- Recovery function asserted by the spec's reversibility invariant (not part
of the script): strip the `.md` extension, decode `__` back to `/`, re-attach
the `docs/` prefix and the extension. -/
def safe_filename_to_path (s : String) : String :=
  String.mk ("docs/".data ++ decodeDunder (s.data.take (s.data.length - 3)) ++ ".md".data)

/-- A path core is unambiguous for the separator transform when no two
adjacent characters are both in `sepChar` (no `__`, `_/`, `/_`, `//`). -/
def noAdjSep : List Char → Bool
  | [] => true
  | [_] => true
  | a :: b :: rest => !(sepChar a && sepChar b) && noAdjSep (b :: rest)

/-- Line 175: the fixed list `markdown_patterns` of Markdown indicators. -/
def markdown_patterns : List String :=
  ["# ", "## ", "### ", "```", "- ", "* ", "1. ", "[", "**", "_", "> "]

/-- Lines 176-177: the indicator count, one per `(line, pattern)` pair with
the pattern occurring in the line, over the first 50 lines. -/
def indicator_count (cs : List Char) : Nat :=
  (((splitOnChar '\n' cs).take 50).flatMap
    (fun line => markdown_patterns.filter (fun p => containsSub p.data line))).length

/-- Line 167: the HTML detection condition of `validate_markdown_content`:
`not content or content.startswith('<!DOCTYPE') or '<html' in content[:100]`. -/
def looksLikeHtml (content : String) : Bool :=
  content.data.isEmpty || prefixOf "<!DOCTYPE".data content.data ||
    containsSub "<html".data (content.data.take 100)

/-- Lines 164-180: `validate_markdown_content`.  Returns `.error msg` where the
Python raises `ValueError(msg)` and `.ok ()` where it returns. -/
def validate_markdown_content (content : String) : Except String Unit :=
  if looksLikeHtml content then
    .error "Received HTML instead of markdown"
  else if (pyStrip content.data).length < 50 then
    .error ("Content too short (" ++ toString content.data.length ++ " bytes)")
  else if indicator_count content.data < 2 then
    .error ("Content doesn't appear to be markdown (only " ++
      toString (indicator_count content.data) ++ " indicators)")
  else
    .ok ()

/-- Line 40: `MAX_RETRIES`. -/
def MAX_RETRIES : Nat := 3

/-- Line 31: `MANIFEST_FILE`. -/
def MANIFEST_FILE : String := "docs_manifest.json"

/-- One entry of the GitHub tree listing (`{path, type}` with `.get` defaults). -/
structure TreeItem where
  path : String
  type : String
deriving DecidableEq

/-- An HTTP response as far as the script inspects one: status code, the two
rate-limit headers (already parsed), the decoded JSON `tree` field for the
discovery call, and the body text for raw fetches. -/
structure HttpResponse where
  status : Nat
  xRateLimitReset : Option Int
  retryAfter : Option Nat
  tree : List TreeItem
  text : String
deriving DecidableEq

/-- Outcome of one `session.get`: either a `requests` network-level exception
or a response. -/
inductive NetResult where
  | err (msg : String)
  | resp (r : HttpResponse)
deriving DecidableEq

/-- Result of `discover_docs_from_github`: a returned path list (also the
fall-through `return []` at line 161), a raised exception, or the script of
responses running out (never reached on adequate scripts). -/
inductive DiscoverResult where
  | ret (paths : List String)
  | failure (msg : String)
  | outOfScript
deriving DecidableEq

/-- Lines 139-151: filter the tree to `blob` entries under `docs/` ending in
`.md`, then sort lexicographically. -/
def discoverFilter (tree : List TreeItem) : List String :=
  List.mergeSort
    ((tree.filter (fun it =>
        it.type == "blob" && it.path.startsWith "docs/" && it.path.endsWith ".md")).map
      (fun it => it.path))
    (fun a b => a ≤ b)

/-- Lines 121-161: the retry loop of `discover_docs_from_github`.  The fuel
argument counts remaining iterations of `for attempt in range(MAX_RETRIES)`
(so `attempt = i` corresponds to fuel `MAX_RETRIES - i`); `now` models
`int(time.time())`; sleeps are elided.  A 403 with a usable reset header takes
the `continue` branch, which moves to the next loop iteration. -/
def discoverLoop (now : Int) : Nat → List NetResult → DiscoverResult
  | 0, _ => .ret []
  | _ + 1, [] => .outOfScript
  | f + 1, .err e :: rest =>
    if 0 < f then discoverLoop now f rest
    else .failure ("Failed to discover docs after 3 attempts: " ++ e)
  | f + 1, .resp r :: rest =>
    if r.status = 403 then
      match r.xRateLimitReset with
      | some reset =>
        if 0 < reset - now + 1 ∧ reset - now + 1 < 300 then discoverLoop now f rest
        else .failure "GitHub API rate limit exceeded"
      | none => .failure "GitHub API rate limit exceeded"
    else if 400 ≤ r.status then
      if 0 < f then discoverLoop now f rest
      else .failure ("Failed to discover docs after 3 attempts: HTTP " ++ toString r.status)
    else .ret (discoverFilter r.tree)

/-- Result of `fetch_markdown_content`: the returned `(filename, content)`
pair, a raised exception, or the response script running out. -/
inductive FetchResult where
  | success (filename content : String)
  | failure (msg : String)
  | outOfScript
deriving DecidableEq

/-- Lines 193-222: the retry loop of `fetch_markdown_content`.  A 429 sleeps
for the retry-after delay and takes the `continue` branch, which moves to the
next loop iteration; other 4xx/5xx raise through `raise_for_status` into the
backoff branch; a validation error is re-raised and terminal; falling out of
the loop raises `Failed to fetch {filename}` (line 222). -/
def fetchLoop (filename : String) : Nat → List NetResult → FetchResult
  | 0, _ => .failure ("Failed to fetch " ++ filename)
  | _ + 1, [] => .outOfScript
  | f + 1, .err e :: rest =>
    if 0 < f then fetchLoop filename f rest
    else .failure ("Failed to fetch " ++ filename ++ " after 3 attempts: " ++ e)
  | f + 1, .resp r :: rest =>
    if r.status = 429 then fetchLoop filename f rest
    else if 400 ≤ r.status then
      if 0 < f then fetchLoop filename f rest
      else .failure ("Failed to fetch " ++ filename ++ " after 3 attempts: HTTP " ++
        toString r.status)
    else
      match validate_markdown_content r.text with
      | .error e => .failure ("Content validation failed: " ++ e)
      | .ok _ => .success filename r.text

/-- Lines 252-260: the fixed attribution header prepended to the changelog. -/
def changelog_header : String :=
  "# Gemini CLI Changelog\n\n> **Source**: https://github.com/google-gemini/gemini-cli/blob/main/CHANGELOG.md\n>\n> This is the official Gemini CLI changelog, automatically fetched from the repository.\n\n---\n\n"

/-- Lines 248-268: the success branch of `fetch_changelog` applied to a 2xx
response body: prepend the attribution header, return `none` if the stripped
combined content is shorter than 100 characters, else return the
`("changelog.md", content)` pair. -/
def changelog_process (body : String) : Option (String × String) :=
  let content := changelog_header ++ body
  if (pyStrip content.data).length < 100 then none
  else some ("changelog.md", content)

/-- An entry of the previously persisted manifest as the script reads it:
`.get("hash", "")` makes a missing hash the empty string, and
`.get("last_updated", now)` makes the timestamp optional. -/
structure OldEntry where
  hash : String
  last_updated : Option String
deriving DecidableEq

/-- An entry the script writes into the new in-memory manifest
(lines 376-381 and 411-417). -/
structure NewEntry where
  original_path : String
  github_url : String
  hash : String
  last_updated : String
  source : Option String
deriving DecidableEq

/-- Round trip through the persisted manifest: a saved `NewEntry` is read back
on the next run as an `OldEntry` with both fields present. -/
def toOldEntry (e : NewEntry) : OldEntry :=
  ⟨e.hash, some e.last_updated⟩

/-- A parsed manifest document as `load_manifest` sees it: the `files` mapping
may be missing, `last_updated` may be null or missing. -/
structure ManifestDoc where
  files : Option (List (String × OldEntry))
  last_updated : Option String
deriving DecidableEq

/-- Lines 56-67: `load_manifest`.  The argument models the disk:
`none` when no manifest file exists, `some none` when the file exists but
parsing raises, `some (some m)` when it parses to `m`. -/
def load_manifest : Option (Option ManifestDoc) → ManifestDoc
  | some (some m) => { m with files := some (m.files.getD []) }
  | some none => ⟨some [], none⟩
  | none => ⟨some [], none⟩

/-- Lines 302-314: `cleanup_old_files`.  Returns the list of filenames the
function unlinks, given the disk contents, this run's successfully fetched
set and the previous manifest's keys. -/
def cleanup_old_files (disk : List String) (current : List String)
    (prevKeys : List String) : List String :=
  (prevKeys.filter (fun f => !current.contains f)).filter
    (fun f => f != MANIFEST_FILE && disk.contains f)

/-- Lines 282-285: `content_has_changed`, with the SHA-256 hex digest
abstracted as `hash`. -/
def content_has_changed (hash : String → String) (content old_hash : String) : Bool :=
  hash content != old_hash

/-- Line 378 and line 413: the GitHub blob URL prefix recorded in entries. -/
def GITHUB_BLOB_BASE : String := "https://github.com/google-gemini/gemini-cli/blob/main/"

/-- Lines 360-384 of `main`: processing of one successfully fetched and
validated documentation file.  Returns the optional disk write
`(filename, content)` performed by `save_markdown_file`, and the
`(filename, entry)` pair recorded in the new manifest.  `old` is the
`files` mapping of the loaded manifest, `now` the timestamp used for
`datetime.now().isoformat()`. -/
def processDoc (hash : String → String) (now : String) (old : List (String × OldEntry))
    (p c : String) : Option (String × String) × (String × NewEntry) :=
  let filename := path_to_safe_filename p
  let old_entry := old.lookup filename
  let old_hash := (old_entry.map (fun e => e.hash)).getD ""
  if content_has_changed hash c old_hash then
    (some (filename, c),
      (filename, ⟨p, GITHUB_BLOB_BASE ++ p, hash c, now, none⟩))
  else
    (none,
      (filename, ⟨p, GITHUB_BLOB_BASE ++ p, old_hash,
        (old_entry.bind (fun e => e.last_updated)).getD now, none⟩))

/-- Accumulated observable state of the per-file loop of `main`: the disk
writes performed, the new manifest's `files` entries, the
`fetched_files` set, and the success/failure statistics. -/
structure RunState where
  writes : List (String × String)
  newFiles : List (String × NewEntry)
  fetched : List String
  successful : Nat
  failed : Nat
  failed_pages : List String
deriving DecidableEq

/-- Lines 357-393 of `main`: the documentation-file loop.  Each list element
is a discovered path together with the outcome of
`fetch_markdown_content` for it: `some content` on success, `none` when the
fetch or validation raised (the `except` branch at line 390). -/
def runDocs (hash : String → String) (now : String) (old : List (String × OldEntry)) :
    List (String × Option String) → RunState
  | [] => ⟨[], [], [], 0, 0, []⟩
  | (p, none) :: rest =>
    let st := runDocs hash now old rest
    ⟨st.writes, st.newFiles, st.fetched, st.successful, st.failed + 1, p :: st.failed_pages⟩
  | (p, some c) :: rest =>
    let pr := processDoc hash now old p c
    let st := runDocs hash now old rest
    ⟨pr.1.toList ++ st.writes, pr.2 :: st.newFiles, pr.2.1 :: st.fetched,
      st.successful + 1, st.failed, st.failed_pages⟩

/-- Lines 398-420 of `main`: processing of a successful changelog result,
mirroring the per-file hash-compare logic with the fixed filename and the
extra `source` tag. -/
def processChangelog (hash : String → String) (now : String)
    (old : List (String × OldEntry)) (content : String) :
    Option (String × String) × (String × NewEntry) :=
  let filename := "changelog.md"
  let old_entry := old.lookup filename
  let old_hash := (old_entry.map (fun e => e.hash)).getD ""
  if content_has_changed hash content old_hash then
    (some (filename, content),
      (filename, ⟨"CHANGELOG.md", GITHUB_BLOB_BASE ++ "CHANGELOG.md", hash content, now,
        some "gemini-cli-repository"⟩))
  else
    (none,
      (filename, ⟨"CHANGELOG.md", GITHUB_BLOB_BASE ++ "CHANGELOG.md", old_hash,
        (old_entry.bind (fun e => e.last_updated)).getD now,
        some "gemini-cli-repository"⟩))

/-- Observable outcome of one whole run of `main`. -/
structure MainResult where
  exitCode : Nat
  st : RunState
  removed : List String
deriving DecidableEq

/-- Lines 317-457: `main`, with the network abstracted: `disc` is the outcome
of `discover_docs_from_github` (`.error` when it raised), `fetchOf p` the
outcome of `fetch_markdown_content` for path `p`, and `changelogBody` the raw
2xx body of the changelog fetch (`none` on 404 or retry exhaustion);
`changelog_process` applies the header and length check of `fetch_changelog`.
`disk` lists the files present in the output directory when
`cleanup_old_files` runs.  The exit code is 1 exactly where `sys.exit(1)` is
reached (lines 350, 354, 455), else 0. -/
def mainRun (hash : String → String) (now : String) (old : List (String × OldEntry))
    (disc : Except String (List String)) (fetchOf : String → Option String)
    (changelogBody : Option String) (disk : List String) : MainResult :=
  match disc with
  | .error _ => ⟨1, ⟨[], [], [], 0, 0, []⟩, []⟩
  | .ok docs =>
    if docs = [] then ⟨1, ⟨[], [], [], 0, 0, []⟩, []⟩
    else
      let st := runDocs hash now old (docs.map (fun p => (p, fetchOf p)))
      let st2 :=
        match changelogBody.bind changelog_process with
        | none => st
        | some (_, content) =>
          let pr := processChangelog hash now old content
          ⟨st.writes ++ pr.1.toList, st.newFiles ++ [pr.2], st.fetched ++ [pr.2.1],
            st.successful + 1, st.failed, st.failed_pages⟩
      let removed := cleanup_old_files disk st2.fetched (old.map Prod.fst)
      let exitCode := if st2.failed_pages ≠ [] ∧ st2.successful = 0 then 1 else 0
      ⟨exitCode, st2, removed⟩

/-! ### Lemmas about the logical-name derivation -/

theorem prefixOf_append_self (a b : List Char) : prefixOf a (a ++ b) = true := by
  induction a with
  | nil => rfl
  | cons x xs ih => simp [prefixOf, ih]

theorem mem_of_prefixOf {d l : List Char} {c : Char} (hc : c ∈ d)
    (h : prefixOf d l = true) : c ∈ l := by
  induction d generalizing l with
  | nil => simp at hc
  | cons x xs ih =>
    cases l with
    | nil => simp [prefixOf] at h
    | cons y ys =>
      simp only [prefixOf, Bool.and_eq_true, beq_iff_eq] at h
      rcases List.mem_cons.mp hc with rfl | hc
      · exact h.1 ▸ List.mem_cons_self _ _
      · exact List.mem_cons_of_mem _ (ih hc h.2)

theorem replaceChar_cons_eq (c : Char) (rep l : List Char) :
    replaceChar c rep (c :: l) = rep ++ replaceChar c rep l := by
  simp [replaceChar]

theorem replaceChar_cons_ne {a c : Char} (h : a ≠ c) (rep l : List Char) :
    replaceChar c rep (a :: l) = a :: replaceChar c rep l := by
  simp [replaceChar, h]

theorem replaceChar_of_not_mem {c : Char} {rep : List Char} {l : List Char}
    (h : c ∉ l) : replaceChar c rep l = l := by
  induction l with
  | nil => rfl
  | cons a as ih =>
    have hne : a ≠ c := fun he => h (he ▸ List.mem_cons_self a as)
    rw [replaceChar_cons_ne hne, ih (fun hm => h (List.mem_cons_of_mem _ hm))]

theorem not_mem_replaceChar {c : Char} {rep : List Char} (hrep : c ∉ rep)
    (l : List Char) : c ∉ replaceChar c rep l := by
  induction l with
  | nil => simp [replaceChar]
  | cons a as ih =>
    by_cases hac : a = c
    · subst hac
      rw [replaceChar_cons_eq]
      intro hm
      rcases List.mem_append.mp hm with h1 | h2
      · exact hrep h1
      · exact ih h2
    · rw [replaceChar_cons_ne hac]
      intro hm
      rcases List.mem_cons.mp hm with he | h2
      · exact hac he.symm
      · exact ih h2

theorem endsWithList_append (s x : List Char) : endsWithList s (x ++ s) = true := by
  unfold endsWithList
  rw [List.reverse_append]
  exact prefixOf_append_self _ _

theorem take_append_sub (x y : List Char) :
    (x ++ y).take ((x ++ y).length - y.length) = x := by
  rw [List.length_append, Nat.add_sub_cancel]
  exact List.take_left x y

theorem stripMdExt_append (x : List Char) : stripMdExt (x ++ ".md".data) = x := by
  unfold stripMdExt
  rw [endsWithList_append, if_pos rfl]
  have h3 : (".md".data : List Char).length = 3 := rfl
  rw [← h3, take_append_sub]

theorem pathCore_wrap (core : List Char) :
    pathCore ("docs/".data ++ core ++ ".md".data) = core := by
  have h1 : "docs/".data ++ core ++ ".md".data = "docs/".data ++ (core ++ ".md".data) :=
    List.append_assoc _ _ _
  have h2 : ("docs/".data ++ (core ++ ".md".data)).drop 5 = core ++ ".md".data := by
    rw [show (5 : Nat) = ("docs/".data : List Char).length from rfl]
    exact List.drop_left _ _
  unfold pathCore stripDocsPre
  rw [h1, prefixOf_append_self, if_pos rfl, h2, stripMdExt_append]

theorem pathToSafe_wrap (core : List Char) :
    pathToSafe ("docs/".data ++ core ++ ".md".data) =
      replaceChar '/' ['_', '_'] core ++ ".md".data := by
  unfold pathToSafe
  rw [pathCore_wrap]

theorem slash_not_mem_pathToSafe (p : List Char) : '/' ∉ pathToSafe p := by
  unfold pathToSafe
  intro hm
  rcases List.mem_append.mp hm with h1 | h2
  · exact not_mem_replaceChar (by decide) _ h1
  · simp at h2

theorem pathToSafe_idem (p : List Char) : pathToSafe (pathToSafe p) = pathToSafe p := by
  have hslash : '/' ∉ pathToSafe p := slash_not_mem_pathToSafe p
  have henc : '/' ∉ replaceChar '/' ['_', '_'] (pathCore p) := by
    intro hm
    exact hslash (List.mem_append.mpr (Or.inl hm))
  have hpre : prefixOf "docs/".data (pathToSafe p) = false := by
    cases hp : prefixOf "docs/".data (pathToSafe p) with
    | false => rfl
    | true => exact absurd (mem_of_prefixOf (by decide) hp) hslash
  have hcore : pathCore (pathToSafe p) = replaceChar '/' ['_', '_'] (pathCore p) := by
    have hstrip : stripDocsPre (pathToSafe p) = pathToSafe p := by
      unfold stripDocsPre
      rw [hpre]
      simp
    unfold pathCore
    rw [hstrip]
    show stripMdExt (replaceChar '/' ['_', '_'] (pathCore p) ++ ".md".data) = _
    rw [stripMdExt_append]
    rfl
  calc pathToSafe (pathToSafe p)
      = replaceChar '/' ['_', '_'] (pathCore (pathToSafe p)) ++ ".md".data := rfl
    _ = replaceChar '/' ['_', '_'] (replaceChar '/' ['_', '_'] (pathCore p)) ++ ".md".data := by
        rw [hcore]
    _ = pathToSafe p := by
        rw [replaceChar_of_not_mem henc]
        rfl

theorem decode_cons_ne {a : Char} (h : a ≠ '_') (l : List Char) :
    decodeDunder (a :: l) = a :: decodeDunder l := by
  cases l with
  | nil => rfl
  | cons b bs =>
    show (if a = '_' ∧ b = '_' then '/' :: decodeDunder bs else a :: decodeDunder (b :: bs)) = _
    rw [if_neg (fun hc => h hc.1)]

theorem not_sep_iff {b : Char} : sepChar b = false ↔ b ≠ '_' ∧ b ≠ '/' := by
  simp [sepChar]

theorem decode_encode {l : List Char} (h : noAdjSep l = true) :
    decodeDunder (replaceChar '/' ['_', '_'] l) = l := by
  induction l with
  | nil => rfl
  | cons a as ih =>
    cases as with
    | nil =>
      by_cases ha : a = '/'
      · subst ha; rfl
      · rw [replaceChar_cons_ne ha]
        rfl
    | cons b bs =>
      have hh : (!(sepChar a && sepChar b) && noAdjSep (b :: bs)) = true := h
      rw [Bool.and_eq_true, Bool.not_eq_true'] at hh
      obtain ⟨hab, htail⟩ := hh
      have ihtail := ih htail
      by_cases ha : a = '/'
      · subst ha
        have hbsep : sepChar b = false := by
          have : sepChar '/' = true := rfl
          rw [this, Bool.true_and] at hab
          exact hab
        have hbne : b ≠ '_' ∧ b ≠ '/' := not_sep_iff.mp hbsep
        rw [replaceChar_cons_eq, replaceChar_cons_ne hbne.2]
        rw [replaceChar_cons_ne hbne.2] at ihtail
        show (if '_' = '_' ∧ '_' = '_' then
            '/' :: decodeDunder (b :: replaceChar '/' ['_', '_'] bs)
          else _) = _
        rw [if_pos ⟨rfl, rfl⟩, ihtail]
      · rw [replaceChar_cons_ne ha]
        by_cases hau : a = '_'
        · subst hau
          have hbsep : sepChar b = false := by
            have : sepChar '_' = true := rfl
            rw [this, Bool.true_and] at hab
            exact hab
          have hbne : b ≠ '_' ∧ b ≠ '/' := not_sep_iff.mp hbsep
          rw [replaceChar_cons_ne hbne.2]
          rw [replaceChar_cons_ne hbne.2] at ihtail
          show (if '_' = '_' ∧ b = '_' then '/' :: decodeDunder (replaceChar '/' ['_', '_'] bs)
            else '_' :: decodeDunder (b :: replaceChar '/' ['_', '_'] bs)) = _
          rw [if_neg (fun hc => hbne.1 hc.2), ihtail]
        · rw [decode_cons_ne hau, ihtail]

theorem pathToSafe_wrap_inj {c₁ c₂ : List Char} (h₁ : noAdjSep c₁ = true)
    (h₂ : noAdjSep c₂ = true)
    (heq : pathToSafe ("docs/".data ++ c₁ ++ ".md".data) =
      pathToSafe ("docs/".data ++ c₂ ++ ".md".data)) : c₁ = c₂ := by
  rw [pathToSafe_wrap, pathToSafe_wrap] at heq
  have henc : replaceChar '/' ['_', '_'] c₁ = replaceChar '/' ['_', '_'] c₂ :=
    List.append_cancel_right heq
  calc c₁ = decodeDunder (replaceChar '/' ['_', '_'] c₁) := (decode_encode h₁).symm
    _ = decodeDunder (replaceChar '/' ['_', '_'] c₂) := by rw [henc]
    _ = c₂ := decode_encode h₂

/-! ### Lemmas about the content validator and the changelog length check -/

theorem two_le_sum_of_two_mem {α : Type} {xs : List α} {g : α → Nat} {x y : α}
    (hx : x ∈ xs) (hy : y ∈ xs) (hxy : x ≠ y) (hgx : 1 ≤ g x) (hgy : 1 ≤ g y) :
    2 ≤ (xs.map g).sum := by
  induction xs with
  | nil => cases hx
  | cons a as ih =>
    rw [List.map_cons, List.sum_cons]
    rcases List.mem_cons.mp hx with rfl | hx'
    · have hy' : y ∈ as := by
        rcases List.mem_cons.mp hy with he | h
        · exact absurd he.symm hxy
        · exact h
      have h2 : g y ≤ (as.map g).sum :=
        List.single_le_sum (fun _ _ => Nat.zero_le _) _ (List.mem_map_of_mem g hy')
      omega
    · rcases List.mem_cons.mp hy with rfl | hy'
      · have h2 : g x ≤ (as.map g).sum :=
          List.single_le_sum (fun _ _ => Nat.zero_le _) _ (List.mem_map_of_mem g hx')
        omega
      · have := ih hx' hy'
        omega

theorem two_le_filter_length {p q : String} {pred : String → Bool}
    (hp : p ∈ markdown_patterns) (hq : q ∈ markdown_patterns) (hpq : p ≠ q)
    (hpp : pred p = true) (hqp : pred q = true) :
    2 ≤ (markdown_patterns.filter pred).length := by
  have hmp : p ∈ markdown_patterns.filter pred := List.mem_filter.mpr ⟨hp, hpp⟩
  have hmq : q ∈ markdown_patterns.filter pred := List.mem_filter.mpr ⟨hq, hqp⟩
  have hsub : ({p, q} : Finset String) ⊆ (markdown_patterns.filter pred).toFinset := by
    intro x hx
    rcases Finset.mem_insert.mp hx with rfl | hx
    · exact List.mem_toFinset.mpr hmp
    · rw [Finset.mem_singleton] at hx
      subst hx
      exact List.mem_toFinset.mpr hmq
  calc 2 = ({p, q} : Finset String).card := (Finset.card_pair hpq).symm
    _ ≤ (markdown_patterns.filter pred).toFinset.card := Finset.card_le_card hsub
    _ ≤ (markdown_patterns.filter pred).length := List.toFinset_card_le _

theorem two_le_indicator_count {cs : List Char} {p q : String}
    (hp : p ∈ markdown_patterns) (hq : q ∈ markdown_patterns) (hpq : p ≠ q)
    (hpl : ∃ l ∈ (splitOnChar '\n' cs).take 50, containsSub p.data l = true)
    (hql : ∃ l ∈ (splitOnChar '\n' cs).take 50, containsSub q.data l = true) :
    2 ≤ indicator_count cs := by
  obtain ⟨l, hl, hplc⟩ := hpl
  obtain ⟨l', hl', hqlc⟩ := hql
  unfold indicator_count
  rw [List.length_flatMap]
  simp only [Function.comp_def]
  by_cases hsame : containsSub q.data l = true
  · have h2 : 2 ≤ (markdown_patterns.filter (fun r => containsSub r.data l)).length :=
      two_le_filter_length hp hq hpq hplc hsame
    have hmem : (markdown_patterns.filter (fun r => containsSub r.data l)).length ∈
        (((splitOnChar '\n' cs).take 50).map
          (fun line => (markdown_patterns.filter (fun r => containsSub r.data line)).length)) :=
      List.mem_map_of_mem _ hl
    have := List.single_le_sum (fun _ _ => Nat.zero_le _) _ hmem
    omega
  · have hne : l ≠ l' := fun he => hsame (he ▸ hqlc)
    apply two_le_sum_of_two_mem hl hl' hne
    · exact List.length_pos.mpr
        (List.ne_nil_of_mem (List.mem_filter.mpr ⟨hp, hplc⟩))
    · exact List.length_pos.mpr
        (List.ne_nil_of_mem (List.mem_filter.mpr ⟨hq, hqlc⟩))

theorem dropWhile_append_length_ge (p : Char → Bool) (x y : List Char) :
    (y.dropWhile p).length ≤ ((x ++ y).dropWhile p).length := by
  induction x with
  | nil => simp
  | cons a as ih =>
    rw [List.cons_append, List.dropWhile_cons]
    by_cases hpa : p a = true
    · rw [if_pos hpa]
      exact ih
    · rw [if_neg hpa]
      calc (y.dropWhile p).length ≤ y.length := (List.dropWhile_sublist p).length_le
        _ ≤ (a :: (as ++ y)).length := by simp [List.length_append]; omega

set_option maxRecDepth 4000 in
theorem changelog_strip_ge (body : List Char) :
    100 ≤ (pyStrip (changelog_header.data ++ body)).length := by
  unfold pyStrip
  have hdw : (changelog_header.data ++ body).dropWhile pyWS = changelog_header.data ++ body := by
    rw [show changelog_header.data ++ body = '#' :: (changelog_header.data.tail ++ body) from rfl]
    rw [List.dropWhile_cons, if_neg (by decide)]
  rw [hdw]
  show 100 ≤ (List.rdropWhile pyWS (changelog_header.data ++ body)).length
  rw [show List.rdropWhile pyWS (changelog_header.data ++ body) =
    ((changelog_header.data ++ body).reverse.dropWhile pyWS).reverse from rfl]
  rw [List.length_reverse, List.reverse_append]
  calc (100 : Nat) ≤ ((changelog_header.data.reverse).dropWhile pyWS).length := by decide
    _ ≤ ((body.reverse ++ changelog_header.data.reverse).dropWhile pyWS).length :=
        dropWhile_append_length_ge pyWS _ _

theorem changelog_process_eq (body : String) :
    changelog_process body = some ("changelog.md", changelog_header ++ body) := by
  show (if (pyStrip (changelog_header ++ body).data).length < 100 then none
    else some ("changelog.md", changelog_header ++ body)) = _
  rw [show (changelog_header ++ body).data = changelog_header.data ++ body.data from rfl]
  rw [if_neg (Nat.not_lt.mpr (changelog_strip_ge body.data))]

/-! ### Lemmas about the orchestrator run model -/

theorem lookup_cons_ne {k fn : String} {β : Type} (o : β) (old : List (String × β))
    (h : k ≠ fn) : List.lookup k ((fn, o) :: old) = List.lookup k old := by
  simp [List.lookup_cons, beq_eq_false_iff_ne.mpr h]

theorem lookup_cons_self {k : String} {β : Type} (o : β) (old : List (String × β)) :
    List.lookup k ((k, o) :: old) = some o := by
  simp [List.lookup_cons]

theorem processDoc_eq (hash : String → String) (now : String)
    (old : List (String × OldEntry)) (p c : String) :
    processDoc hash now old p c =
      if hash c = ((old.lookup (path_to_safe_filename p)).map (fun e => e.hash)).getD "" then
        (none, (path_to_safe_filename p,
          ⟨p, GITHUB_BLOB_BASE ++ p,
            ((old.lookup (path_to_safe_filename p)).map (fun e => e.hash)).getD "",
            ((old.lookup (path_to_safe_filename p)).bind (fun e => e.last_updated)).getD now,
            none⟩))
      else
        (some (path_to_safe_filename p, c), (path_to_safe_filename p,
          ⟨p, GITHUB_BLOB_BASE ++ p, hash c, now, none⟩)) := by
  simp only [processDoc, content_has_changed]
  by_cases h : hash c =
      ((old.lookup (path_to_safe_filename p)).map (fun e => e.hash)).getD ""
  · rw [if_pos h]
    simp only [bne_eq_false_iff_eq.mpr h, Bool.false_eq_true, if_false]
  · rw [if_neg h]
    simp only [bne_iff_ne.mpr h, if_true]

theorem processDoc_fst (hash : String → String) (now : String)
    (old : List (String × OldEntry)) (p c : String) :
    (processDoc hash now old p c).2.1 = path_to_safe_filename p := by
  rw [processDoc_eq]
  split <;> rfl

theorem processDoc_hash_eq (hash : String → String) (now : String)
    (old : List (String × OldEntry)) (p c : String) :
    (processDoc hash now old p c).2.2.hash = hash c := by
  rw [processDoc_eq]
  split
  · next h => exact h.symm
  · rfl

theorem processDoc_shape (hash : String → String) (now : String)
    (old : List (String × OldEntry)) (p c : String) :
    ∃ hsh lu, (processDoc hash now old p c).2.2 =
      ⟨p, GITHUB_BLOB_BASE ++ p, hsh, lu, none⟩ := by
  rw [processDoc_eq]
  split
  · exact ⟨_, _, rfl⟩
  · exact ⟨_, _, rfl⟩

theorem processDoc_congr (hash : String → String) (now : String)
    {old₁ old₂ : List (String × OldEntry)} (p c : String)
    (h : old₁.lookup (path_to_safe_filename p) = old₂.lookup (path_to_safe_filename p)) :
    processDoc hash now old₁ p c = processDoc hash now old₂ p c := by
  rw [processDoc_eq, processDoc_eq, h]

theorem processDoc_unchanged (hash : String → String) (now : String)
    (old : List (String × OldEntry)) (p c : String) (e : OldEntry)
    (hl : old.lookup (path_to_safe_filename p) = some e) (hh : e.hash = hash c) :
    processDoc hash now old p c =
      (none, (path_to_safe_filename p,
        ⟨p, GITHUB_BLOB_BASE ++ p, e.hash, e.last_updated.getD now, none⟩)) := by
  rw [processDoc_eq, hl]
  have hmap : (Option.map (fun e => e.hash) (some e)).getD "" = e.hash := rfl
  rw [hmap, if_pos hh.symm]
  rfl

theorem runDocs_nil (hash : String → String) (now : String)
    (old : List (String × OldEntry)) : runDocs hash now old [] = ⟨[], [], [], 0, 0, []⟩ := rfl

theorem runDocs_cons_none (hash : String → String) (now : String)
    (old : List (String × OldEntry)) (p : String) (rest : List (String × Option String)) :
    runDocs hash now old ((p, none) :: rest) =
      ⟨(runDocs hash now old rest).writes, (runDocs hash now old rest).newFiles,
        (runDocs hash now old rest).fetched, (runDocs hash now old rest).successful,
        (runDocs hash now old rest).failed + 1, p :: (runDocs hash now old rest).failed_pages⟩ :=
  rfl

theorem runDocs_cons_some (hash : String → String) (now : String)
    (old : List (String × OldEntry)) (p c : String) (rest : List (String × Option String)) :
    runDocs hash now old ((p, some c) :: rest) =
      ⟨(processDoc hash now old p c).1.toList ++ (runDocs hash now old rest).writes,
        (processDoc hash now old p c).2 :: (runDocs hash now old rest).newFiles,
        (processDoc hash now old p c).2.1 :: (runDocs hash now old rest).fetched,
        (runDocs hash now old rest).successful + 1, (runDocs hash now old rest).failed,
        (runDocs hash now old rest).failed_pages⟩ := rfl

theorem runDocs_keys (hash : String → String) (now : String)
    (old : List (String × OldEntry)) (prs : List (String × Option String)) :
    (runDocs hash now old prs).newFiles.map Prod.fst = (runDocs hash now old prs).fetched := by
  induction prs with
  | nil => rfl
  | cons pr rest ih =>
    obtain ⟨p, oc⟩ := pr
    cases oc with
    | none => rw [runDocs_cons_none]; exact ih
    | some c => rw [runDocs_cons_some]; simpa using ih

theorem mem_fetched {hash : String → String} {now : String}
    {old : List (String × OldEntry)} {prs : List (String × Option String)} {fn : String}
    (h : fn ∈ (runDocs hash now old prs).fetched) :
    ∃ p c, (p, some c) ∈ prs ∧ path_to_safe_filename p = fn := by
  induction prs with
  | nil => simp [runDocs_nil] at h
  | cons pr rest ih =>
    obtain ⟨p, oc⟩ := pr
    cases oc with
    | none =>
      rw [runDocs_cons_none] at h
      obtain ⟨p', c', hm, he⟩ := ih h
      exact ⟨p', c', List.mem_cons_of_mem _ hm, he⟩
    | some c =>
      rw [runDocs_cons_some] at h
      rcases List.mem_cons.mp h with he | hm
      · refine ⟨p, c, List.mem_cons_self _ _, ?_⟩
        rw [processDoc_fst] at he
        exact he.symm
      · obtain ⟨p', c', hm', he⟩ := ih hm
        exact ⟨p', c', List.mem_cons_of_mem _ hm', he⟩

theorem successful_eq_zero_iff (hash : String → String) (now : String)
    (old : List (String × OldEntry)) (prs : List (String × Option String)) :
    (runDocs hash now old prs).successful = 0 ↔ ∀ pr ∈ prs, pr.2 = none := by
  induction prs with
  | nil => simp [runDocs_nil]
  | cons pr rest ih =>
    obtain ⟨p, oc⟩ := pr
    cases oc with
    | none =>
      rw [runDocs_cons_none]
      simp only [List.mem_cons]
      constructor
      · rintro h pr' (rfl | hm)
        · rfl
        · exact (ih.mp h) pr' hm
      · intro h
        exact ih.mpr (fun pr' hm => h pr' (Or.inr hm))
    | some c =>
      rw [runDocs_cons_some]
      simp only [List.mem_cons]
      constructor
      · intro h
        omega
      · intro h
        exact absurd (h (p, some c) (Or.inl rfl)) (by simp)

theorem failed_pages_eq_nil_iff (hash : String → String) (now : String)
    (old : List (String × OldEntry)) (prs : List (String × Option String)) :
    (runDocs hash now old prs).failed_pages = [] ↔ ∀ pr ∈ prs, pr.2 ≠ none := by
  induction prs with
  | nil => simp [runDocs_nil]
  | cons pr rest ih =>
    obtain ⟨p, oc⟩ := pr
    cases oc with
    | none =>
      rw [runDocs_cons_none]
      constructor
      · intro h
        exact absurd h (List.cons_ne_nil _ _)
      · intro h
        exact absurd rfl (h (p, none) (List.mem_cons_self _ _))
    | some c =>
      rw [runDocs_cons_some]
      simp only [List.mem_cons]
      constructor
      · rintro h pr' (rfl | hm)
        · simp
        · exact (ih.mp h) pr' hm
      · intro h
        exact ih.mpr (fun pr' hm => h pr' (Or.inr hm))

theorem runDocs_cons_old (hash : String → String) (now : String) (fn : String)
    (o : OldEntry) (old : List (String × OldEntry)) (prs : List (String × Option String))
    (h : ∀ pr ∈ prs, path_to_safe_filename pr.1 ≠ fn) :
    runDocs hash now ((fn, o) :: old) prs = runDocs hash now old prs := by
  induction prs with
  | nil => rfl
  | cons pr rest ih =>
    have hrest := ih (fun pr' hm => h pr' (List.mem_cons_of_mem _ hm))
    obtain ⟨p, oc⟩ := pr
    have hp : path_to_safe_filename p ≠ fn := h (p, oc) (List.mem_cons_self _ _)
    cases oc with
    | none => rw [runDocs_cons_none, runDocs_cons_none, hrest]
    | some c =>
      rw [runDocs_cons_some, runDocs_cons_some, hrest,
        processDoc_congr hash now p c (lookup_cons_ne o old hp)]

theorem processDoc_second (hash : String → String) (now1 now2 : String)
    (old tailOld : List (String × OldEntry)) (p c : String) :
    processDoc hash now2
        ((path_to_safe_filename p, toOldEntry (processDoc hash now1 old p c).2.2) :: tailOld)
        p c
      = (none, (path_to_safe_filename p, (processDoc hash now1 old p c).2.2)) := by
  have hl : List.lookup (path_to_safe_filename p)
      ((path_to_safe_filename p, toOldEntry (processDoc hash now1 old p c).2.2) :: tailOld)
      = some (toOldEntry (processDoc hash now1 old p c).2.2) := lookup_cons_self _ _
  have hh : (toOldEntry (processDoc hash now1 old p c).2.2).hash = hash c :=
    processDoc_hash_eq hash now1 old p c
  rw [processDoc_unchanged hash now2 _ p c _ hl hh]
  obtain ⟨hsh, lu, hshape⟩ := processDoc_shape hash now1 old p c
  rw [hshape]
  rfl

theorem second_run_state (hash : String → String) (now1 now2 : String)
    (old : List (String × OldEntry)) (prs : List (String × String))
    (hnd : (prs.map (fun pr => path_to_safe_filename pr.1)).Nodup) :
    runDocs hash now2
        ((runDocs hash now1 old (prs.map (fun pr => (pr.1, some pr.2)))).newFiles.map
          (fun fe => (fe.1, toOldEntry fe.2)))
        (prs.map (fun pr => (pr.1, some pr.2)))
      = ⟨[], (runDocs hash now1 old (prs.map (fun pr => (pr.1, some pr.2)))).newFiles,
          (runDocs hash now1 old (prs.map (fun pr => (pr.1, some pr.2)))).fetched,
          prs.length, 0, []⟩ := by
  induction prs generalizing old with
  | nil => rfl
  | cons pr rest ih =>
    obtain ⟨p, c⟩ := pr
    rw [List.map_cons, List.nodup_cons] at hnd
    obtain ⟨hfn, hndr⟩ := hnd
    have hsafe : ∀ pr' ∈ rest.map (fun pr => (pr.1, some pr.2)),
        path_to_safe_filename pr'.1 ≠ path_to_safe_filename p := by
      intro pr' hm he
      obtain ⟨pr0, hm0, rfl⟩ := List.mem_map.mp hm
      apply hfn
      rw [← he]
      exact List.mem_map_of_mem _ hm0
    rw [List.map_cons]
    rw [runDocs_cons_some hash now1]
    dsimp only
    rw [List.map_cons, processDoc_fst]
    rw [runDocs_cons_some hash now2]
    rw [runDocs_cons_old hash now2 _ _ _ _ hsafe]
    rw [ih old hndr]
    rw [processDoc_second hash now1 now2 old _ p c]
    have hpair : (path_to_safe_filename p, (processDoc hash now1 old p c).2.2)
        = (processDoc hash now1 old p c).2 := by
      rw [← processDoc_fst hash now1 old p c]
    rw [hpair]
    dsimp only
    simp
    exact processDoc_fst hash now1 old p c

theorem processChangelog_fst (hash : String → String) (now : String)
    (old : List (String × OldEntry)) (content : String) :
    (processChangelog hash now old content).2.1 = "changelog.md" := by
  simp only [processChangelog]
  split <;> rfl

theorem mainRun_error (hash : String → String) (now : String)
    (old : List (String × OldEntry)) (e : String) (fetchOf : String → Option String)
    (chl : Option String) (disk : List String) :
    mainRun hash now old (.error e) fetchOf chl disk = ⟨1, ⟨[], [], [], 0, 0, []⟩, []⟩ := rfl

theorem mainRun_ok_none (hash : String → String) (now : String)
    (old : List (String × OldEntry)) (docs : List String) (fetchOf : String → Option String)
    (disk : List String) (h : docs ≠ []) :
    mainRun hash now old (.ok docs) fetchOf none disk =
      ⟨if (runDocs hash now old (docs.map (fun p => (p, fetchOf p)))).failed_pages ≠ []
            ∧ (runDocs hash now old (docs.map (fun p => (p, fetchOf p)))).successful = 0
          then 1 else 0,
        runDocs hash now old (docs.map (fun p => (p, fetchOf p))),
        cleanup_old_files disk
          (runDocs hash now old (docs.map (fun p => (p, fetchOf p)))).fetched
          (old.map Prod.fst)⟩ := by
  simp only [mainRun]
  rw [if_neg h]
  rfl

set_option maxHeartbeats 1000000 in
theorem mainRun_ok_some (hash : String → String) (now : String)
    (old : List (String × OldEntry)) (docs : List String) (fetchOf : String → Option String)
    (b : String) (disk : List String) (h : docs ≠ []) :
    mainRun hash now old (.ok docs) fetchOf (some b) disk =
      ⟨0,
        ⟨(runDocs hash now old (docs.map (fun p => (p, fetchOf p)))).writes ++
            (processChangelog hash now old (changelog_header ++ b)).1.toList,
          (runDocs hash now old (docs.map (fun p => (p, fetchOf p)))).newFiles ++
            [(processChangelog hash now old (changelog_header ++ b)).2],
          (runDocs hash now old (docs.map (fun p => (p, fetchOf p)))).fetched ++
            [(processChangelog hash now old (changelog_header ++ b)).2.1],
          (runDocs hash now old (docs.map (fun p => (p, fetchOf p)))).successful + 1,
          (runDocs hash now old (docs.map (fun p => (p, fetchOf p)))).failed,
          (runDocs hash now old (docs.map (fun p => (p, fetchOf p)))).failed_pages⟩,
        cleanup_old_files disk
          ((runDocs hash now old (docs.map (fun p => (p, fetchOf p)))).fetched ++
            [(processChangelog hash now old (changelog_header ++ b)).2.1])
          (old.map Prod.fst)⟩ := by
  have hbind : (some b).bind changelog_process = some ("changelog.md", changelog_header ++ b) :=
    changelog_process_eq b
  simp only [mainRun]
  rw [if_neg h, hbind]
  rw [if_neg (fun hc => Nat.succ_ne_zero _ hc.2)]

theorem cleanup_mem (disk current prevKeys : List String) (f : String) :
    f ∈ cleanup_old_files disk current prevKeys ↔
      f ∈ prevKeys ∧ f ∉ current ∧ f ≠ MANIFEST_FILE ∧ f ∈ disk := by
  simp only [cleanup_old_files, List.mem_filter, Bool.and_eq_true, Bool.not_eq_true',
    bne_iff_ne, List.elem_eq_mem, decide_eq_true_eq, decide_eq_false_iff_not]
  tauto

/-! ### Claim theorems -/

/-- C1: when the fetched content hash equals the hash recorded in the prior
manifest for the logical name, the run performs no disk write for that file
and the new entry carries forward the prior entry's hash and its
`last_updated` (which the prior entry must carry, as every saved entry does);
consequently a second run over unchanged contents (with collision-free
logical names) performs no writes at all and reproduces the first run's
manifest entries verbatim, timestamps included. -/
theorem C1_unchanged_skip_and_idempotent :
    (∀ (hash : String → String) (now : String) (old : List (String × OldEntry))
        (p c t : String) (e : OldEntry),
        old.lookup (path_to_safe_filename p) = some e → e.hash = hash c →
        e.last_updated = some t →
        (processDoc hash now old p c).1 = none ∧
        (processDoc hash now old p c).2.2.hash = e.hash ∧
        (processDoc hash now old p c).2.2.last_updated = t)
    ∧ (∀ (hash : String → String) (now1 now2 : String) (old : List (String × OldEntry))
        (prs : List (String × String)),
        (prs.map (fun pr => path_to_safe_filename pr.1)).Nodup →
        (runDocs hash now2
            ((runDocs hash now1 old (prs.map (fun pr => (pr.1, some pr.2)))).newFiles.map
              (fun fe => (fe.1, toOldEntry fe.2)))
            (prs.map (fun pr => (pr.1, some pr.2)))).writes = []
        ∧ (runDocs hash now2
            ((runDocs hash now1 old (prs.map (fun pr => (pr.1, some pr.2)))).newFiles.map
              (fun fe => (fe.1, toOldEntry fe.2)))
            (prs.map (fun pr => (pr.1, some pr.2)))).newFiles =
          (runDocs hash now1 old (prs.map (fun pr => (pr.1, some pr.2)))).newFiles) := by
  constructor
  · intro hash now old p c t e hl hh hlu
    rw [processDoc_unchanged hash now old p c e hl hh]
    refine ⟨rfl, rfl, ?_⟩
    show e.last_updated.getD now = t
    rw [hlu]
    rfl
  · intro hash now1 now2 old prs hnd
    rw [second_run_state hash now1 now2 old prs hnd]
    exact ⟨rfl, rfl⟩

/-- Witness for C1 at a concrete one-file manifest: the unchanged file is
skipped and the second run reproduces the first. -/
theorem C1_witness :
    ((processDoc (fun s => "H" ++ s) "T2" [("index.md", ⟨"Hbody", some "T1"⟩)]
        "docs/index.md" "body").1 = none ∧
      (processDoc (fun s => "H" ++ s) "T2" [("index.md", ⟨"Hbody", some "T1"⟩)]
        "docs/index.md" "body").2.2.hash = (⟨"Hbody", some "T1"⟩ : OldEntry).hash ∧
      (processDoc (fun s => "H" ++ s) "T2" [("index.md", ⟨"Hbody", some "T1"⟩)]
        "docs/index.md" "body").2.2.last_updated = "T1")
    ∧ ((runDocs (fun s => "H" ++ s) "T2"
          ((runDocs (fun s => "H" ++ s) "T1" []
              ([("docs/index.md", "body")].map (fun pr => (pr.1, some pr.2)))).newFiles.map
            (fun fe => (fe.1, toOldEntry fe.2)))
          ([("docs/index.md", "body")].map (fun pr => (pr.1, some pr.2)))).writes = []
      ∧ (runDocs (fun s => "H" ++ s) "T2"
          ((runDocs (fun s => "H" ++ s) "T1" []
              ([("docs/index.md", "body")].map (fun pr => (pr.1, some pr.2)))).newFiles.map
            (fun fe => (fe.1, toOldEntry fe.2)))
          ([("docs/index.md", "body")].map (fun pr => (pr.1, some pr.2)))).newFiles =
        (runDocs (fun s => "H" ++ s) "T1" []
          ([("docs/index.md", "body")].map (fun pr => (pr.1, some pr.2)))).newFiles) :=
  ⟨C1_unchanged_skip_and_idempotent.1 (fun s => "H" ++ s) "T2"
      [("index.md", ⟨"Hbody", some "T1"⟩)] "docs/index.md" "body" "T1"
      ⟨"Hbody", some "T1"⟩ (by decide) (by decide) rfl,
    C1_unchanged_skip_and_idempotent.2 (fun s => "H" ++ s) "T1" "T2" []
      [("docs/index.md", "body")] (by decide)⟩

/-- C2 counterexample: the `continue` taken on a rate-limit response advances
the `for attempt in range(3)` loop, so three consecutive rate-limit responses
exhaust the attempts: the per-file fetch raises its terminal failure
(line 222) and the discovery loop falls out returning the empty list
(line 161), refuting that such calls are never terminated by attempt
exhaustion. -/
theorem C2_counterexample :
    fetchLoop "cli__commands.md" MAX_RETRIES
        [.resp ⟨429, none, some 60, [], ""⟩, .resp ⟨429, none, some 60, [], ""⟩,
          .resp ⟨429, none, some 60, [], ""⟩]
      = .failure "Failed to fetch cli__commands.md"
    ∧ discoverLoop 0 MAX_RETRIES
        [.resp ⟨403, some 10, none, [], ""⟩, .resp ⟨403, some 10, none, [], ""⟩,
          .resp ⟨403, some 10, none, [], ""⟩]
      = .ret [] := by
  constructor <;> rfl

/-- C2 as amended: a 403 with a usable reset wait during discovery and a 429
during a per-file fetch each sleep and retry via `continue`, but the retry
consumes one of the 3 attempts; hence three consecutive such responses
exhaust the loop, discovery returning the empty list and the per-file fetch
raising its terminal failure. -/
theorem C2_rate_limit_consumes_attempts :
    (∀ (now : Int) (f : Nat) (rest : List NetResult) (r : HttpResponse) (reset : Int),
      r.status = 403 → r.xRateLimitReset = some reset →
      0 < reset - now + 1 → reset - now + 1 < 300 →
      discoverLoop now (f + 1) (.resp r :: rest) = discoverLoop now f rest)
    ∧ (∀ (fn : String) (f : Nat) (rest : List NetResult) (r : HttpResponse),
      r.status = 429 → fetchLoop fn (f + 1) (.resp r :: rest) = fetchLoop fn f rest)
    ∧ (∀ (now : Int) (r : HttpResponse) (reset : Int),
      r.status = 403 → r.xRateLimitReset = some reset →
      0 < reset - now + 1 → reset - now + 1 < 300 →
      discoverLoop now MAX_RETRIES [.resp r, .resp r, .resp r] = .ret [])
    ∧ (∀ (fn : String) (r : HttpResponse), r.status = 429 →
      fetchLoop fn MAX_RETRIES [.resp r, .resp r, .resp r]
        = .failure ("Failed to fetch " ++ fn)) := by
  have hd : ∀ (now : Int) (f : Nat) (rest : List NetResult) (r : HttpResponse) (reset : Int),
      r.status = 403 → r.xRateLimitReset = some reset →
      0 < reset - now + 1 → reset - now + 1 < 300 →
      discoverLoop now (f + 1) (.resp r :: rest) = discoverLoop now f rest := by
    intro now f rest r reset h403 hreset h1 h2
    simp only [discoverLoop]
    rw [if_pos h403, hreset]
    show (if 0 < reset - now + 1 ∧ reset - now + 1 < 300 then discoverLoop now f rest
      else DiscoverResult.failure "GitHub API rate limit exceeded") = discoverLoop now f rest
    rw [if_pos ⟨h1, h2⟩]
  have hf : ∀ (fn : String) (f : Nat) (rest : List NetResult) (r : HttpResponse),
      r.status = 429 → fetchLoop fn (f + 1) (.resp r :: rest) = fetchLoop fn f rest := by
    intro fn f rest r h429
    simp only [fetchLoop]
    rw [if_pos h429]
  refine ⟨hd, hf, ?_, ?_⟩
  · intro now r reset h403 hreset h1 h2
    show discoverLoop now (2 + 1) _ = _
    rw [hd now 2 _ r reset h403 hreset h1 h2,
      hd now 1 _ r reset h403 hreset h1 h2,
      hd now 0 _ r reset h403 hreset h1 h2]
    rfl
  · intro fn r h429
    show fetchLoop fn (2 + 1) _ = _
    rw [hf fn 2 _ r h429, hf fn 1 _ r h429, hf fn 0 _ r h429]
    rfl

/-- Witness for C2's amended statement at concrete responses. -/
theorem C2_witness :
    discoverLoop 0 (2 + 1) [.resp ⟨403, some 10, none, [], ""⟩]
      = discoverLoop 0 2 []
    ∧ fetchLoop "a.md" (2 + 1) [.resp ⟨429, none, none, [], ""⟩]
      = fetchLoop "a.md" 2 []
    ∧ discoverLoop 0 MAX_RETRIES
        [.resp ⟨403, some 10, none, [], ""⟩, .resp ⟨403, some 10, none, [], ""⟩,
          .resp ⟨403, some 10, none, [], ""⟩] = .ret []
    ∧ fetchLoop "a.md" MAX_RETRIES
        [.resp ⟨429, none, none, [], ""⟩, .resp ⟨429, none, none, [], ""⟩,
          .resp ⟨429, none, none, [], ""⟩] = .failure ("Failed to fetch " ++ "a.md") :=
  ⟨C2_rate_limit_consumes_attempts.1 0 2 [] ⟨403, some 10, none, [], ""⟩ 10 rfl rfl
      (by decide) (by decide),
    C2_rate_limit_consumes_attempts.2.1 "a.md" 2 [] ⟨429, none, none, [], ""⟩ rfl,
    C2_rate_limit_consumes_attempts.2.2.1 0 ⟨403, some 10, none, [], ""⟩ 10 rfl rfl
      (by decide) (by decide),
    C2_rate_limit_consumes_attempts.2.2.2 "a.md" ⟨429, none, none, [], ""⟩ rfl⟩

/-- C3: reconciliation removes exactly the names present in the previous
manifest but absent from this run's successfully fetched set, restricted to
files on disk and never the manifest file itself; on the concrete example,
previous keys `a.md, b.md` and successful keys `a.md, c.md` delete exactly
`b.md`, while the new manifest retains `a.md` and adds `c.md`. -/
theorem C3_reconciliation :
    (∀ (disk current prevKeys : List String) (f : String),
      f ∈ cleanup_old_files disk current prevKeys ↔
        f ∈ prevKeys ∧ f ∉ current ∧ f ≠ MANIFEST_FILE ∧ f ∈ disk)
    ∧ (∀ disk current prevKeys : List String,
        MANIFEST_FILE ∉ cleanup_old_files disk current prevKeys)
    ∧ ((runDocs (fun s => "H" ++ s) "now"
          [("a.md", ⟨"HA", some "t1"⟩), ("b.md", ⟨"HB", some "t2"⟩)]
          [("docs/a.md", some "A"), ("docs/c.md", some "C")]).fetched = ["a.md", "c.md"]
      ∧ (runDocs (fun s => "H" ++ s) "now"
          [("a.md", ⟨"HA", some "t1"⟩), ("b.md", ⟨"HB", some "t2"⟩)]
          [("docs/a.md", some "A"), ("docs/c.md", some "C")]).newFiles.map Prod.fst
        = ["a.md", "c.md"]
      ∧ cleanup_old_files ["a.md", "b.md", "docs_manifest.json"]
          (runDocs (fun s => "H" ++ s) "now"
            [("a.md", ⟨"HA", some "t1"⟩), ("b.md", ⟨"HB", some "t2"⟩)]
            [("docs/a.md", some "A"), ("docs/c.md", some "C")]).fetched
          ["a.md", "b.md"] = ["b.md"]) := by
  refine ⟨cleanup_mem, ?_, by decide, by decide, by decide⟩
  intro disk current prevKeys hm
  exact ((cleanup_mem disk current prevKeys MANIFEST_FILE).mp hm).2.2.1 rfl

/-- C4: the run exits 0 exactly when discovery returned a nonempty list and
at least one fetch (a documentation file or the changelog) succeeded, and
exits 1 exactly otherwise (discovery raised, discovery empty, or every fetch
failed). -/
theorem C4_exit_codes (hash : String → String) (now : String)
    (old : List (String × OldEntry)) (disc : Except String (List String))
    (fetchOf : String → Option String) (chl : Option String) (disk : List String) :
    ((mainRun hash now old disc fetchOf chl disk).exitCode = 0 ↔
      (∃ docs, disc = .ok docs ∧ docs ≠ [] ∧
        ((∃ p ∈ docs, (fetchOf p).isSome) ∨ chl.isSome)))
    ∧ ((mainRun hash now old disc fetchOf chl disk).exitCode = 1 ↔
      ¬(∃ docs, disc = .ok docs ∧ docs ≠ [] ∧
        ((∃ p ∈ docs, (fetchOf p).isSome) ∨ chl.isSome))) := by
  have hkey : (mainRun hash now old disc fetchOf chl disk).exitCode = 0 ↔
      (∃ docs, disc = .ok docs ∧ docs ≠ [] ∧
        ((∃ p ∈ docs, (fetchOf p).isSome) ∨ chl.isSome)) := by
    match disc with
    | .error e =>
      rw [mainRun_error]
      simp
    | .ok docs =>
      by_cases hne : docs = []
      · subst hne
        constructor
        · intro h
          cases h
        · rintro ⟨docs', heq, hne', _⟩
          exact absurd (Except.ok.inj heq) (fun he => hne' he.symm)
      · cases chl with
        | some b =>
          rw [mainRun_ok_some hash now old docs fetchOf b disk hne]
          simp only [true_iff]
          exact ⟨docs, rfl, hne, Or.inr rfl⟩
        | none =>
          rw [mainRun_ok_none hash now old docs fetchOf disk hne]
          constructor
          · intro h
            refine ⟨docs, rfl, hne, Or.inl ?_⟩
            by_contra hno
            push_neg at hno
            have hall : ∀ p ∈ docs, fetchOf p = none := by
              intro p hp
              have := hno p hp
              exact Option.not_isSome_iff_eq_none.mp (by simpa using this)
            have hsucc : (runDocs hash now old
                (docs.map (fun p => (p, fetchOf p)))).successful = 0 := by
              rw [successful_eq_zero_iff]
              intro pr hpr
              obtain ⟨p, hp, rfl⟩ := List.mem_map.mp hpr
              exact hall p hp
            have hfp : (runDocs hash now old
                (docs.map (fun p => (p, fetchOf p)))).failed_pages ≠ [] := by
              intro hnil
              obtain ⟨p0, hp0⟩ := List.exists_mem_of_ne_nil docs hne
              have := (failed_pages_eq_nil_iff hash now old
                (docs.map (fun p => (p, fetchOf p)))).mp hnil
                (p0, fetchOf p0) (List.mem_map_of_mem _ hp0)
              exact this (hall p0 hp0)
            rw [if_pos ⟨hfp, hsucc⟩] at h
            cases h
          · rintro ⟨docs', heq, -, hsome⟩
            have hd : docs' = docs := (Except.ok.inj heq).symm
            rw [hd] at hsome
            rcases hsome with ⟨p, hp, hpsome⟩ | hchl
            · have hsucc : (runDocs hash now old
                  (docs.map (fun p => (p, fetchOf p)))).successful ≠ 0 := by
                intro h0
                have hnone : fetchOf p = none := (successful_eq_zero_iff hash now old
                  (docs.map (fun p => (p, fetchOf p)))).mp h0
                  (p, fetchOf p) (List.mem_map_of_mem _ hp)
                rw [hnone] at hpsome
                cases hpsome
              rw [if_neg (fun hc => hsucc hc.2)]
            · cases hchl
  refine ⟨hkey, ?_⟩
  have hcases : (mainRun hash now old disc fetchOf chl disk).exitCode = 0 ∨
      (mainRun hash now old disc fetchOf chl disk).exitCode = 1 := by
    match disc with
    | .error e => rw [mainRun_error]; exact Or.inr rfl
    | .ok docs =>
      by_cases hne : docs = []
      · subst hne
        exact Or.inr rfl
      · cases chl with
        | some b => rw [mainRun_ok_some hash now old docs fetchOf b disk hne]; exact Or.inl rfl
        | none =>
          rw [mainRun_ok_none hash now old docs fetchOf disk hne]
          by_cases hc : (runDocs hash now old
              (docs.map (fun p => (p, fetchOf p)))).failed_pages ≠ []
              ∧ (runDocs hash now old (docs.map (fun p => (p, fetchOf p)))).successful = 0
          · rw [if_pos hc]; exact Or.inr rfl
          · rw [if_neg hc]; exact Or.inl rfl
  constructor
  · intro h1
    intro hp
    rw [← hkey] at hp
    rw [h1] at hp
    cases hp
  · intro hnp
    rcases hcases with h0 | h1
    · exact absurd (hkey.mp h0) hnp
    · exact h1

/-- C5 counterexample: a string of exactly 50 bytes containing the two
distinct Markdown markers `**` and `[` in its first line, free of HTML
signals, is nevertheless rejected, because the length check uses the
stripped length (3 here), not the byte length (50): the claim's
acceptance criterion "at least 50 bytes total" is refuted. -/
theorem C5_counterexample :
    (String.mk ('*' :: '*' :: '[' :: List.replicate 47 ' ')).data.length = 50
    ∧ looksLikeHtml (String.mk ('*' :: '*' :: '[' :: List.replicate 47 ' ')) = false
    ∧ "**" ∈ markdown_patterns ∧ "[" ∈ markdown_patterns ∧ "**" ≠ ("[" : String)
    ∧ (∃ l ∈ (splitOnChar '\n'
        (String.mk ('*' :: '*' :: '[' :: List.replicate 47 ' ')).data).take 50,
        containsSub "**".data l = true)
    ∧ (∃ l ∈ (splitOnChar '\n'
        (String.mk ('*' :: '*' :: '[' :: List.replicate 47 ' ')).data).take 50,
        containsSub "[".data l = true)
    ∧ validate_markdown_content (String.mk ('*' :: '*' :: '[' :: List.replicate 47 ' '))
      = .error "Content too short (50 bytes)" := by
  refine ⟨by decide, by decide, by decide, by decide, by decide, by decide, by decide, ?_⟩
  rfl

/-- C5 as amended: the validator rejects the empty string, strings starting
with a DOCTYPE declaration, strings with an HTML tag marker in the first 100
characters, and strings whose *stripped* content is shorter than 50
characters; past those checks it fails exactly when fewer than 2 marker
incidences are counted over the first 50 lines, so it accepts any string
that is free of the HTML signals, has stripped length at least 50, and
contains two distinct Markdown markers within its first 50 lines. -/
theorem C5_validator :
    validate_markdown_content "" = .error "Received HTML instead of markdown"
    ∧ (∀ s : String, prefixOf "<!DOCTYPE".data s.data = true →
        validate_markdown_content s = .error "Received HTML instead of markdown")
    ∧ (∀ s : String, containsSub "<html".data (s.data.take 100) = true →
        validate_markdown_content s = .error "Received HTML instead of markdown")
    ∧ (∀ s : String, looksLikeHtml s = false → (pyStrip s.data).length < 50 →
        validate_markdown_content s =
          .error ("Content too short (" ++ toString s.data.length ++ " bytes)"))
    ∧ (∀ s : String, looksLikeHtml s = false → 50 ≤ (pyStrip s.data).length →
        (validate_markdown_content s = .ok () ↔ 2 ≤ indicator_count s.data))
    ∧ (∀ (s : String) (p q : String), looksLikeHtml s = false →
        50 ≤ (pyStrip s.data).length →
        p ∈ markdown_patterns → q ∈ markdown_patterns → p ≠ q →
        (∃ l ∈ (splitOnChar '\n' s.data).take 50, containsSub p.data l = true) →
        (∃ l ∈ (splitOnChar '\n' s.data).take 50, containsSub q.data l = true) →
        validate_markdown_content s = .ok ()) := by
  refine ⟨rfl, ?_, ?_, ?_, ?_, ?_⟩
  · intro s h
    have hh : looksLikeHtml s = true := by
      unfold looksLikeHtml
      rw [h]
      simp
    simp [validate_markdown_content, hh]
  · intro s h
    have hh : looksLikeHtml s = true := by
      unfold looksLikeHtml
      rw [h]
      simp
    simp [validate_markdown_content, hh]
  · intro s h hlt
    simp only [validate_markdown_content, h, Bool.false_eq_true, if_false]
    rw [if_pos hlt]
  · intro s h hge
    by_cases hc : indicator_count s.data < 2
    · simp only [validate_markdown_content, h, Bool.false_eq_true, if_false,
        Nat.not_lt.mpr hge, if_neg (Nat.not_lt.mpr hge)]
      rw [if_pos hc]
      constructor
      · intro he
        cases he
      · intro h2
        omega
    · simp only [validate_markdown_content, h, Bool.false_eq_true, if_false]
      rw [if_neg (Nat.not_lt.mpr hge), if_neg hc]
      simp only [true_iff]
      omega
  · intro s p q h hge hp hq hpq hpl hql
    have h2 : 2 ≤ indicator_count s.data := two_le_indicator_count hp hq hpq hpl hql
    simp only [validate_markdown_content, h, Bool.false_eq_true, if_false]
    rw [if_neg (Nat.not_lt.mpr hge), if_neg (Nat.not_lt.mpr h2)]

/-- Witness for C5's amended statement: a DOCTYPE page and a whitespace-padded
short string are rejected, and a plain two-marker document is accepted. -/
theorem C5_witness :
    validate_markdown_content "<!DOCTYPE html><head></head>"
      = .error "Received HTML instead of markdown"
    ∧ validate_markdown_content (String.mk ('*' :: '*' :: '[' :: List.replicate 47 ' '))
      = .error ("Content too short (" ++
          toString (String.mk ('*' :: '*' :: '[' :: List.replicate 47 ' ')).data.length
          ++ " bytes)")
    ∧ validate_markdown_content
        "# Gemini CLI documentation overview\n- the first item of the section list"
      = .ok () :=
  ⟨C5_validator.2.1 "<!DOCTYPE html><head></head>" (by decide),
    C5_validator.2.2.2.1 (String.mk ('*' :: '*' :: '[' :: List.replicate 47 ' '))
      (by decide) (by decide),
    C5_validator.2.2.2.2.2
      "# Gemini CLI documentation overview\n- the first item of the section list"
      "# " "- " (by decide) (by decide) (by decide) (by decide) (by decide) (by decide)
      (by decide)⟩

/-- C6 counterexample: two distinct origin paths under `docs/` ending in
`.md` collide to the same logical name, refuting injectivity (and with it
reversibility) on all such paths. -/
theorem C6_counterexample :
    path_to_safe_filename "docs/a/b.md" = path_to_safe_filename "docs/a__b.md"
    ∧ "docs/a/b.md" ≠ ("docs/a__b.md" : String)
    ∧ prefixOf "docs/".data "docs/a/b.md".data = true
    ∧ prefixOf "docs/".data "docs/a__b.md".data = true
    ∧ endsWithList ".md".data "docs/a/b.md".data = true
    ∧ endsWithList ".md".data "docs/a__b.md".data = true := by
  refine ⟨rfl, by decide, by decide, by decide, by decide, by decide⟩

/-- C6 as amended: on origin paths `docs/<core>.md` whose core never has two
adjacent characters from the set of underscore and slash, the derivation is
injective, and the normalized origin path is recovered from the logical name
by stripping `.md`, decoding `__` back to `/` and re-attaching the prefix. -/
theorem C6_injective_reversible (c₁ c₂ : List Char)
    (h₁ : noAdjSep c₁ = true) (h₂ : noAdjSep c₂ = true) :
    (path_to_safe_filename (String.mk ("docs/".data ++ c₁ ++ ".md".data)) =
        path_to_safe_filename (String.mk ("docs/".data ++ c₂ ++ ".md".data)) →
      String.mk ("docs/".data ++ c₁ ++ ".md".data) =
        String.mk ("docs/".data ++ c₂ ++ ".md".data))
    ∧ safe_filename_to_path
        (path_to_safe_filename (String.mk ("docs/".data ++ c₁ ++ ".md".data)))
      = String.mk ("docs/".data ++ c₁ ++ ".md".data) := by
  constructor
  · intro heq
    have heq' : pathToSafe ("docs/".data ++ c₁ ++ ".md".data) =
        pathToSafe ("docs/".data ++ c₂ ++ ".md".data) := congrArg String.data heq
    rw [pathToSafe_wrap_inj h₁ h₂ heq']
  · show String.mk ("docs/".data ++
        decodeDunder ((pathToSafe ("docs/".data ++ c₁ ++ ".md".data)).take
          ((pathToSafe ("docs/".data ++ c₁ ++ ".md".data)).length - 3)) ++ ".md".data) = _
    rw [pathToSafe_wrap]
    have h3 : (".md".data : List Char).length = 3 := rfl
    rw [← h3, take_append_sub, decode_encode h₁]

/-- Witness for C6's amended statement at the concrete core `cli/commands`. -/
theorem C6_witness :
    (path_to_safe_filename (String.mk ("docs/".data ++ "cli/commands".data ++ ".md".data)) =
        path_to_safe_filename (String.mk ("docs/".data ++ "x".data ++ ".md".data)) →
      String.mk ("docs/".data ++ "cli/commands".data ++ ".md".data) =
        String.mk ("docs/".data ++ "x".data ++ ".md".data))
    ∧ safe_filename_to_path
        (path_to_safe_filename (String.mk ("docs/".data ++ "cli/commands".data ++ ".md".data)))
      = String.mk ("docs/".data ++ "cli/commands".data ++ ".md".data) :=
  C6_injective_reversible "cli/commands".data "x".data (by decide) (by decide)

/-- C7 counterexample: applying the derivation to its own output reproduces
that output exactly, refuting the claim that it does not. -/
theorem C7_counterexample :
    path_to_safe_filename "cli__commands.md" = "cli__commands.md"
    ∧ path_to_safe_filename (path_to_safe_filename "docs/cli/commands.md")
      = path_to_safe_filename "docs/cli/commands.md" := ⟨rfl, rfl⟩

/-- C7 as amended: the two example derivations hold, and the derivation is
idempotent on every input (in particular on its own outputs, whose `docs/`
prefix is gone and which contain no slash), though still one-way because of
collisions. -/
theorem C7_examples_idempotent :
    path_to_safe_filename "docs/cli/commands.md" = "cli__commands.md"
    ∧ path_to_safe_filename "docs/index.md" = "index.md"
    ∧ ∀ p : String, path_to_safe_filename (path_to_safe_filename p)
      = path_to_safe_filename p := by
  refine ⟨rfl, rfl, fun p => ?_⟩
  show String.mk (pathToSafe (pathToSafe p.data)) = String.mk (pathToSafe p.data)
  rw [pathToSafe_idem]

/-- C8: loading the manifest is total: an absent file and a parse failure
both yield the empty manifest, a successful parse is returned with its
`files` key forced present, and in every case the result carries a `files`
mapping. -/
theorem C8_load_manifest_total :
    load_manifest none = ⟨some [], none⟩
    ∧ load_manifest (some none) = ⟨some [], none⟩
    ∧ (∀ m : ManifestDoc, load_manifest (some (some m)) =
        ⟨some (m.files.getD []), m.last_updated⟩)
    ∧ (∀ d, (load_manifest d).files.isSome = true) := by
  refine ⟨rfl, rfl, fun m => rfl, fun d => ?_⟩
  match d with
  | none => rfl
  | some none => rfl
  | some (some m) => rfl

/-- C9: a logical name recorded in the previous manifest whose fetch fails
this run is absent from the new manifest and from the fetched set, and its
existing local copy is deleted by reconciliation even though the path is
still present upstream in the discovered list. -/
theorem C9_failed_fetch_pruned (hash : String → String) (now : String)
    (old : List (String × OldEntry)) (docs : List String)
    (fetchOf : String → Option String) (chl : Option String) (disk : List String)
    (fn : String)
    (hne : docs ≠ [])
    (hup : ∃ p ∈ docs, path_to_safe_filename p = fn)
    (hfail : ∀ p ∈ docs, path_to_safe_filename p = fn → fetchOf p = none)
    (hchl : chl = none ∨ fn ≠ "changelog.md")
    (hprev : fn ∈ old.map Prod.fst)
    (hmani : fn ≠ MANIFEST_FILE)
    (hdisk : fn ∈ disk) :
    fn ∉ (mainRun hash now old (.ok docs) fetchOf chl disk).st.newFiles.map Prod.fst
    ∧ fn ∉ (mainRun hash now old (.ok docs) fetchOf chl disk).st.fetched
    ∧ fn ∈ (mainRun hash now old (.ok docs) fetchOf chl disk).removed := by
  have hnotfetched : fn ∉ (runDocs hash now old
      (docs.map (fun p => (p, fetchOf p)))).fetched := by
    intro hmem
    obtain ⟨p, c, hm, hsafe⟩ := mem_fetched hmem
    obtain ⟨p', hp', heqpr⟩ := List.mem_map.mp hm
    have hps : p' = p := congrArg Prod.fst heqpr
    have hsnd : fetchOf p' = some c := congrArg Prod.snd heqpr
    rw [hfail p' hp' (by rw [hps]; exact hsafe)] at hsnd
    cases hsnd
  cases chl with
  | none =>
    rw [mainRun_ok_none hash now old docs fetchOf disk hne]
    refine ⟨?_, hnotfetched, ?_⟩
    · rw [runDocs_keys]
      exact hnotfetched
    · exact (cleanup_mem disk _ _ fn).mpr ⟨hprev, hnotfetched, hmani, hdisk⟩
  | some b =>
    rcases hchl with h | hfnne
    · cases h
    · rw [mainRun_ok_some hash now old docs fetchOf b disk hne]
      have hnot2 : fn ∉ (runDocs hash now old
          (docs.map (fun p => (p, fetchOf p)))).fetched ++
          [(processChangelog hash now old (changelog_header ++ b)).2.1] := by
        intro hmem
        rcases List.mem_append.mp hmem with hmem1 | hmem2
        · exact hnotfetched hmem1
        · rw [processChangelog_fst] at hmem2
          rcases List.mem_singleton.mp hmem2 with rfl
          exact hfnne rfl
      refine ⟨?_, hnot2, ?_⟩
      · rw [List.map_append, runDocs_keys]
        intro hmem
        rcases List.mem_append.mp hmem with hmem1 | hmem2
        · exact hnotfetched hmem1
        · rw [List.map_singleton, processChangelog_fst] at hmem2
          rcases List.mem_singleton.mp hmem2 with rfl
          exact hfnne rfl
      · exact (cleanup_mem disk _ _ fn).mpr ⟨hprev, hnot2, hmani, hdisk⟩

/-- Witness for C9: the manifest knows `b.md`, its only path fails this run,
and reconciliation deletes it. -/
theorem C9_witness :
    "b.md" ∉ (mainRun (fun s => "H" ++ s) "now" [("b.md", ⟨"HB", some "t"⟩)]
        (.ok ["docs/b.md"]) (fun _ => none) none ["b.md"]).st.newFiles.map Prod.fst
    ∧ "b.md" ∉ (mainRun (fun s => "H" ++ s) "now" [("b.md", ⟨"HB", some "t"⟩)]
        (.ok ["docs/b.md"]) (fun _ => none) none ["b.md"]).st.fetched
    ∧ "b.md" ∈ (mainRun (fun s => "H" ++ s) "now" [("b.md", ⟨"HB", some "t"⟩)]
        (.ok ["docs/b.md"]) (fun _ => none) none ["b.md"]).removed :=
  C9_failed_fetch_pruned (fun s => "H" ++ s) "now" [("b.md", ⟨"HB", some "t"⟩)]
    ["docs/b.md"] (fun _ => none) none ["b.md"] "b.md"
    (by decide) ⟨"docs/b.md", by decide, by decide⟩
    (fun p _ _ => rfl) (Or.inl rfl) (by decide) (by decide) (by decide)

/-- C10: for every 2xx changelog body, prepending the fixed attribution
header makes the stripped combined content at least 100 characters, so the
"content too short" branch of `fetch_changelog` is unreachable and the
combined content is returned for saving as is — no Markdown validation is
applied on this path. -/
theorem C10_changelog_header_suffices (body : String) :
    changelog_process body = some ("changelog.md", changelog_header ++ body)
    ∧ ¬(pyStrip (changelog_header ++ body).data).length < 100 := by
  refine ⟨changelog_process_eq body, ?_⟩
  rw [show (changelog_header ++ body).data = changelog_header.data ++ body.data from rfl]
  exact Nat.not_lt.mpr (changelog_strip_ge body.data)

end FetchDocs
